import Mathlib

/-!
Verification of the statistical core of the CCRB concentration/risk repository
(`utils.py`): the Lorenz-curve/Gini-coefficient engine (`lorenz_curve`,
`gini_coefficient`, `top_share`, shared validator `_to_1d_nonneg_array`) and
the group-aggregation engine (`compute_group_stats`).

The embedding is shallow: Python floats are modelled as exact rationals (`ℚ`),
with an explicit constructor for the non-finite IEEE values (`nan`, `±inf`)
that the validator rejects; `numpy` array operations become list operations;
every fallible operation returns `Except Err`.
-/

deriving instance DecidableEq for Except

namespace CCRB

/-- A numeric input element as it arrives from the caller: a finite value
(modelled exactly as a rational) or one of the non-finite IEEE floats that
`np.isfinite` rejects. -/
inductive FloatIn
  | nan
  | inf
  | ninf
  | val (q : ℚ)
deriving DecidableEq

/-- `¬ np.isfinite` on a single element. -/
def FloatIn.isNonFinite : FloatIn → Bool
  | .val _ => false
  | _ => true

/-- The finite payload of an element, when there is one. -/
def FloatIn.finQ : FloatIn → Option ℚ
  | .val q => some q
  | _ => none

/-- The distinct failure sites of the core (`raise ValueError(...)` in the
source); the spec groups them into the four-error taxonomy below. -/
inductive Err
  | emptyInput
  | nonFiniteInput
  | negativeInput
  | badTopPct
  | missingColumns (missing : List String)
  | groupColNotFound (c : String)
  | groupColNotAllowed (c : String)
  | nonNumericMeasure
  | negativeMeasure
deriving DecidableEq

/-- Spec taxonomy: `InvalidInput` — malformed numeric sequence or
out-of-range percentile fraction. -/
def Err.isInvalidIn : Err → Bool
  | .emptyInput => true
  | .nonFiniteInput => true
  | .negativeInput => true
  | .badTopPct => true
  | _ => false

/-- Spec taxonomy: `ConfigurationError` — grouping field outside the
allow-list. -/
def Err.isConfigErr : Err → Bool
  | .groupColNotAllowed _ => true
  | _ => false

/-- Spec taxonomy: `DataQualityError` — measure fields with non-numeric or
negative content. -/
def Err.isDataQualityErr : Err → Bool
  | .nonNumericMeasure => true
  | .negativeMeasure => true
  | _ => false

/-- The finite values of the sequence, in order (total after the finiteness
check has passed, where it equals the whole sequence). -/
def floatVals (xs : List FloatIn) : List ℚ := xs.filterMap FloatIn.finQ

/-- `_to_1d_nonneg_array`: reject empty input, then non-finite entries, then
negative entries; otherwise return the values unchanged. -/
def toNonnegArray (xs : List FloatIn) : Except Err (List ℚ) :=
  if xs.isEmpty then .error .emptyInput
  else if xs.any FloatIn.isNonFinite then .error .nonFiniteInput
  else if (floatVals xs).any (fun q => decide (q < 0)) then .error .negativeInput
  else .ok (floatVals xs)

/-- A sequence the validator accepts: non-empty, all entries finite and
non-negative. -/
def validSeq (xs : List FloatIn) : Bool :=
  !xs.isEmpty && xs.all (fun a => match a with | .val q => decide (0 ≤ q) | _ => false)

/-- `np.cumsum`: running partial sums. -/
def cumsum : List ℚ → List ℚ
  | [] => []
  | a :: t => a :: (cumsum t).map (a + ·)

/-- `arr[-1] = b`: replace the last element (no-op on the empty list). -/
def setLast : List ℚ → ℚ → List ℚ
  | [], _ => []
  | [_], b => [b]
  | a :: c :: t, b => a :: setLast (c :: t) b

/-- `np.linspace(0.0, 1.0, n + 1)`: the uniform partition `0, 1/n, …, 1`. -/
def linspace01 (n : ℕ) : List ℚ :=
  (List.range (n + 1)).map (fun i : ℕ => (i : ℚ) / (n : ℚ))

/-- `lorenz_curve`: validate, sort ascending, cumulate, normalise by the
total; equality line when the total is zero; last `y` forced to `1`. -/
def lorenz_curve (xs : List FloatIn) : Except Err (List ℚ × List ℚ) :=
  match toNonnegArray xs with
  | .error e => .error e
  | .ok v =>
    let n := v.length
    let v_sorted := v.insertionSort (· ≤ ·)
    let total := v_sorted.sum
    let x := linspace01 n
    if total = 0 then .ok (x, x)
    else
      let cum := cumsum v_sorted
      let y := 0 :: cum.map (fun c => c / total)
      .ok (x, setLast y 1)

/-- `np.trapezoid(y, x)`: trapezoidal integration over consecutive points. -/
def trapezoid : List ℚ → List ℚ → ℚ
  | y1 :: y2 :: ys, x1 :: x2 :: xs =>
      (x2 - x1) * (y1 + y2) / 2 + trapezoid (y2 :: ys) (x2 :: xs)
  | _, _ => 0

/-- `gini_coefficient`: `1 - 2·area` under the Lorenz curve, clipped to
`[0, 1]`. -/
def gini_coefficient (xs : List FloatIn) : Except Err ℚ :=
  match lorenz_curve xs with
  | .error e => .error e
  | .ok (x, y) =>
    let area := trapezoid y x
    let g := 1 - 2 * area
    .ok (max 0 (min g 1))

/-- `top_share`: share of the total contributed by the top
`ceil(n · top_pct)` values; the fraction is range-checked before the array is
validated; `0` when the total is zero. -/
def top_share (xs : List FloatIn) (top_pct : ℚ) : Except Err ℚ :=
  if ¬(0 < top_pct ∧ top_pct ≤ 1) then .error .badTopPct
  else match toNonnegArray xs with
  | .error e => .error e
  | .ok v =>
    let total := v.sum
    if total = 0 then .ok 0
    else
      let k := (⌈(v.length : ℚ) * top_pct⌉).toNat
      let v_desc := (v.insertionSort (· ≤ ·)).reverse
      .ok ((v_desc.take k).sum / total)

/-! ### Basic facts about the validator -/

theorem finQ_eq_some {a : FloatIn} {q : ℚ} : a.finQ = some q ↔ a = .val q := by
  cases a <;> simp [FloatIn.finQ]

theorem mem_floatVals {xs : List FloatIn} {q : ℚ} :
    q ∈ floatVals xs ↔ FloatIn.val q ∈ xs := by
  simp [floatVals, List.mem_filterMap, finQ_eq_some]

theorem validSeq_mem {xs : List FloatIn} (h : validSeq xs = true) :
    ∀ a ∈ xs, ∃ q, a = .val q ∧ 0 ≤ q := by
  intro a ha
  have h2 := ((Bool.and_eq_true _ _).mp h).2
  rw [List.all_eq_true] at h2
  have ha2 := h2 a ha
  cases a with
  | val q => exact ⟨q, rfl, by simpa using ha2⟩
  | nan => simp at ha2
  | inf => simp at ha2
  | ninf => simp at ha2

theorem validSeq_ne_nil {xs : List FloatIn} (h : validSeq xs = true) : xs ≠ [] := by
  have h1 := ((Bool.and_eq_true _ _).mp h).1
  intro hx
  subst hx
  simp [validSeq] at h

theorem floatVals_length_of_fin {xs : List FloatIn}
    (h : ∀ a ∈ xs, ∃ q, a = .val q ∧ 0 ≤ q) : (floatVals xs).length = xs.length := by
  induction xs with
  | nil => rfl
  | cons a t ih =>
      obtain ⟨q, rfl, -⟩ := h a (by simp)
      have := ih (fun b hb => h b (List.mem_cons_of_mem _ hb))
      simp [floatVals, List.filterMap_cons, FloatIn.finQ] at *
      exact this

theorem floatVals_length {xs : List FloatIn} (h : validSeq xs = true) :
    (floatVals xs).length = xs.length :=
  floatVals_length_of_fin (validSeq_mem h)

theorem floatVals_nonneg {xs : List FloatIn} (h : validSeq xs = true) :
    ∀ q ∈ floatVals xs, 0 ≤ q := by
  intro q hq
  obtain ⟨q', hq', hnn⟩ := validSeq_mem h _ (mem_floatVals.mp hq)
  cases hq'
  exact hnn

theorem floatVals_ne_nil {xs : List FloatIn} (h : validSeq xs = true) :
    floatVals xs ≠ [] := by
  intro hz
  have hl := floatVals_length h
  rw [hz] at hl
  exact validSeq_ne_nil h (List.length_eq_zero.mp hl.symm)

theorem toNonnegArray_ok {xs : List FloatIn} (h : validSeq xs = true) :
    toNonnegArray xs = .ok (floatVals xs) := by
  have h1 : xs.isEmpty = false := by
    cases xs with
    | nil => exact absurd rfl (validSeq_ne_nil h)
    | cons a t => rfl
  have h2 : xs.any FloatIn.isNonFinite = false := by
    rw [List.any_eq_false]
    intro a ha
    obtain ⟨q, rfl, -⟩ := validSeq_mem h a ha
    simp [FloatIn.isNonFinite]
  have h3 : (floatVals xs).any (fun q => decide (q < 0)) = false := by
    rw [List.any_eq_false]
    intro q hq
    simpa using not_lt.mpr (floatVals_nonneg h q hq)
  simp [toNonnegArray, h1, h2, h3]

/-! ### Facts about `cumsum`, `setLast`, `linspace01`, `trapezoid` -/

theorem cumsum_length (l : List ℚ) : (cumsum l).length = l.length := by
  induction l with
  | nil => rfl
  | cons a t ih => simp [cumsum, ih]

theorem cumsum_ne_nil {l : List ℚ} (h : l ≠ []) : cumsum l ≠ [] := by
  cases l with
  | nil => exact absurd rfl h
  | cons a t => simp [cumsum]

theorem getLast?_cons_ne {a : ℚ} {l : List ℚ} (h : l ≠ []) :
    (a :: l).getLast? = l.getLast? := by
  cases l with
  | nil => exact absurd rfl h
  | cons b u => exact List.getLast?_cons_cons

theorem cumsum_getLast? {l : List ℚ} (h : l ≠ []) :
    (cumsum l).getLast? = some l.sum := by
  induction l with
  | nil => exact absurd rfl h
  | cons a t ih =>
      cases t with
      | nil => simp [cumsum]
      | cons b u =>
          have hne : cumsum (b :: u) ≠ [] := cumsum_ne_nil (by simp)
          have hmapne : (cumsum (b :: u)).map (a + ·) ≠ [] := by
            simpa using hne
          rw [cumsum, getLast?_cons_ne hmapne, List.getLast?_map, ih (by simp)]
          simp

theorem cumsum_nonneg {l : List ℚ} (h : ∀ q ∈ l, 0 ≤ q) :
    ∀ c ∈ cumsum l, 0 ≤ c := by
  induction l with
  | nil => exact fun c hc => absurd hc (List.not_mem_nil c)
  | cons a t ih =>
      intro c hc
      rw [cumsum, List.mem_cons] at hc
      rcases hc with rfl | hc
      · exact h c (by simp)
      · rw [List.mem_map] at hc
        obtain ⟨d, hd, rfl⟩ := hc
        have h0 : 0 ≤ a := h a (by simp)
        have h1 : 0 ≤ d := ih (fun q hq => h q (List.mem_cons_of_mem _ hq)) d hd
        positivity

theorem cumsum_chain' {l : List ℚ} (h : ∀ q ∈ l, 0 ≤ q) :
    (cumsum l).Chain' (· ≤ ·) := by
  induction l with
  | nil => exact List.chain'_nil
  | cons a t ih =>
      rw [cumsum]
      rcases List.eq_nil_or_concat t with rfl | -
      · exact List.chain'_singleton a
      · apply List.Chain'.cons'
        · rw [List.chain'_map]
          exact (ih (fun q hq => h q (List.mem_cons_of_mem _ hq))).imp
            (fun x y hxy => add_le_add_left hxy a)
        · intro b hb
          rw [List.head?_map] at hb
          cases hh : (cumsum t).head? with
          | none => rw [hh] at hb; simp at hb
          | some c =>
              rw [hh] at hb
              have hb' : b = a + c := by simpa [Option.mem_def, eq_comm] using hb
              subst hb'
              have hc : 0 ≤ c :=
                cumsum_nonneg (fun q hq => h q (List.mem_cons_of_mem _ hq)) c
                  (List.mem_of_mem_head? hh)
              linarith

theorem setLast_eq_of_getLast? {l : List ℚ} {b : ℚ} (h : l.getLast? = some b) :
    setLast l b = l := by
  induction l with
  | nil => simp at h
  | cons a t ih =>
      cases t with
      | nil =>
          simp only [List.getLast?_singleton, Option.some_inj] at h
          simp [setLast, h]
      | cons c u =>
          rw [List.getLast?_cons_cons] at h
          rw [setLast, ih h]

theorem linspace01_length (n : ℕ) : (linspace01 n).length = n + 1 := by
  rw [linspace01, List.length_map, List.length_range]

theorem linspace01_getElem? {n i : ℕ} (h : i < n + 1) :
    (linspace01 n)[i]? = some ((i : ℚ) / (n : ℚ)) := by
  rw [linspace01, List.getElem?_map, List.getElem?_range h, Option.map_some']

theorem linspace01_head? (n : ℕ) : (linspace01 n).head? = some 0 := by
  rw [linspace01, List.range_succ_eq_map]
  simp

theorem linspace01_getLast? {n : ℕ} (h : 1 ≤ n) :
    (linspace01 n).getLast? = some 1 := by
  have hne : ((n : ℚ)) ≠ 0 := by exact_mod_cast Nat.one_le_iff_ne_zero.mp h
  rw [linspace01, List.range_succ, List.map_append, List.map_cons, List.map_nil,
    List.getLast?_concat, div_self hne]

theorem linspace01_chain' (n : ℕ) : (linspace01 n).Chain' (· ≤ ·) := by
  rw [linspace01, List.chain'_map]
  refine (List.chain'_range_succ _ n).mpr ?_
  intro m hm
  have hnpos : (0 : ℚ) < (n : ℚ) := by exact_mod_cast Nat.zero_lt_of_lt hm
  have hmono : (m : ℚ) ≤ ((Nat.succ m : ℕ) : ℚ) := by exact_mod_cast Nat.le_succ m
  gcongr

theorem trapezoid_self {l : List ℚ} (h : l ≠ []) :
    trapezoid l l = ((l.getLast h) ^ 2 - (l.head h) ^ 2) / 2 := by
  induction l with
  | nil => exact absurd rfl h
  | cons a t ih =>
      cases t with
      | nil => simp [trapezoid]
      | cons b u =>
          rw [trapezoid, ih (by simp)]
          simp only [List.getLast_cons_cons, List.head_cons]
          ring

/-- The shape of a successful `lorenz_curve` call: `setLast` is a no-op
because the final cumulative share is exactly `1` over `ℚ`. -/
theorem lorenz_ok {xs : List FloatIn} (h : validSeq xs = true) :
    lorenz_curve xs =
      if (floatVals xs).sum = 0 then .ok (linspace01 xs.length, linspace01 xs.length)
      else .ok (linspace01 xs.length,
        0 :: (cumsum ((floatVals xs).insertionSort (· ≤ ·))).map
          (fun c => c / (floatVals xs).sum)) := by
  have hperm := List.perm_insertionSort (· ≤ ·) (floatVals xs)
  have hsum : ((floatVals xs).insertionSort (· ≤ ·)).sum = (floatVals xs).sum :=
    hperm.sum_eq
  have hlen := floatVals_length h
  rw [lorenz_curve, toNonnegArray_ok h]
  simp only [hsum, hlen]
  by_cases h0 : (floatVals xs).sum = 0
  · simp [h0]
  · have hsne : (floatVals xs).insertionSort (· ≤ ·) ≠ [] := by
      intro hz
      exact floatVals_ne_nil h (List.length_eq_zero.mp (by rw [← hperm.length_eq, hz]; rfl))
    have hcne : cumsum ((floatVals xs).insertionSort (· ≤ ·)) ≠ [] := cumsum_ne_nil hsne
    have hmapne : (cumsum ((floatVals xs).insertionSort (· ≤ ·))).map
        (fun c => c / (floatVals xs).sum) ≠ [] := by simpa using hcne
    have hy : ((0 : ℚ) :: (cumsum ((floatVals xs).insertionSort (· ≤ ·))).map
        (fun c => c / (floatVals xs).sum)).getLast? = some 1 := by
      rw [getLast?_cons_ne hmapne, List.getLast?_map, cumsum_getLast? hsne,
        Option.map_some', hsum, div_self h0]
    rw [if_neg h0, if_neg h0, setLast_eq_of_getLast? hy]

theorem sorted_vals_ne_nil {xs : List FloatIn} (h : validSeq xs = true) :
    (floatVals xs).insertionSort (· ≤ ·) ≠ [] := by
  intro hz
  have := (List.perm_insertionSort (· ≤ ·) (floatVals xs)).length_eq
  rw [hz] at this
  exact floatVals_ne_nil h (List.length_eq_zero.mp this.symm)

theorem sorted_vals_nonneg {xs : List FloatIn} (h : validSeq xs = true) :
    ∀ q ∈ (floatVals xs).insertionSort (· ≤ ·), 0 ≤ q := fun q hq =>
  floatVals_nonneg h q ((List.perm_insertionSort (· ≤ ·) (floatVals xs)).mem_iff.mp hq)

theorem vals_sum_nonneg {xs : List FloatIn} (h : validSeq xs = true) :
    0 ≤ (floatVals xs).sum :=
  List.sum_nonneg (floatVals_nonneg h)

theorem lorenz_y_chain {xs : List FloatIn} (h : validSeq xs = true)
    (h0 : (floatVals xs).sum ≠ 0) :
    ((0 : ℚ) :: (cumsum ((floatVals xs).insertionSort (· ≤ ·))).map
      (fun c => c / (floatVals xs).sum)).Chain' (· ≤ ·) := by
  have hpos : 0 < (floatVals xs).sum := lt_of_le_of_ne (vals_sum_nonneg h) (Ne.symm h0)
  apply List.Chain'.cons'
  · rw [List.chain'_map]
    exact (cumsum_chain' (sorted_vals_nonneg h)).imp
      (fun x y hxy => div_le_div_of_nonneg_right hxy hpos.le)
  · intro b hb
    rw [List.head?_map] at hb
    cases hh : (cumsum ((floatVals xs).insertionSort (· ≤ ·))).head? with
    | none => rw [hh] at hb; simp at hb
    | some c =>
        rw [hh] at hb
        have hb' : b = c / (floatVals xs).sum := by
          simpa [Option.mem_def, eq_comm] using hb
        subst hb'
        have hc : 0 ≤ c :=
          cumsum_nonneg (sorted_vals_nonneg h) c (List.mem_of_mem_head? hh)
        positivity

theorem lorenz_y_getLast {xs : List FloatIn} (h : validSeq xs = true)
    (h0 : (floatVals xs).sum ≠ 0) :
    ((0 : ℚ) :: (cumsum ((floatVals xs).insertionSort (· ≤ ·))).map
      (fun c => c / (floatVals xs).sum)).getLast? = some 1 := by
  have hsne := sorted_vals_ne_nil h
  have hmapne : (cumsum ((floatVals xs).insertionSort (· ≤ ·))).map
      (fun c => c / (floatVals xs).sum) ≠ [] := by
    simpa using cumsum_ne_nil hsne
  rw [getLast?_cons_ne hmapne, List.getLast?_map, cumsum_getLast? hsne, Option.map_some',
    (List.perm_insertionSort (· ≤ ·) (floatVals xs)).sum_eq, div_self h0]

theorem lorenz_y_length {xs : List FloatIn} (h : validSeq xs = true) :
    ((0 : ℚ) :: (cumsum ((floatVals xs).insertionSort (· ≤ ·))).map
      (fun c => c / (floatVals xs).sum)).length = xs.length + 1 := by
  rw [List.length_cons, List.length_map, cumsum_length,
    (List.perm_insertionSort (· ≤ ·) (floatVals xs)).length_eq, floatVals_length h]

/-- Claim C3: On every non-empty sequence of finite non-negative values,
`lorenz_curve` succeeds; the returned `x` is the uniform partition
`0, 1/n, …, 1` (it depends only on the length `n`), and the returned `y` has
length `n + 1`, is non-decreasing, starts at exactly `0` and ends at exactly
`1`; when the sum of the values is zero the curve is the equality line
`y = x` (no division by zero occurs). -/
theorem lorenz_curve_shape (xs : List FloatIn) (h : validSeq xs = true) :
    ∃ y : List ℚ,
      lorenz_curve xs = .ok (linspace01 xs.length, y) ∧
      (∀ i < xs.length + 1,
        (linspace01 xs.length)[i]? = some ((i : ℚ) / (xs.length : ℚ))) ∧
      y.length = xs.length + 1 ∧
      y.Chain' (· ≤ ·) ∧
      y.head? = some 0 ∧
      y.getLast? = some 1 ∧
      ((floatVals xs).sum = 0 → y = linspace01 xs.length) := by
  have hn1 : 1 ≤ xs.length := by
    cases xs with
    | nil => exact absurd rfl (validSeq_ne_nil h)
    | cons a t => simp
  rw [lorenz_ok h]
  by_cases h0 : (floatVals xs).sum = 0
  · rw [if_pos h0]
    exact ⟨linspace01 xs.length, rfl, fun i hi => linspace01_getElem? hi,
      linspace01_length _, linspace01_chain' _, linspace01_head? _,
      linspace01_getLast? hn1, fun _ => rfl⟩
  · rw [if_neg h0]
    exact ⟨_, rfl, fun i hi => linspace01_getElem? hi, lorenz_y_length h,
      lorenz_y_chain h h0, rfl, lorenz_y_getLast h h0, fun hz => absurd hz h0⟩

/-- Witness for C3 at the concrete input `[3, 1]`. -/
theorem lorenz_curve_shape_witness :
    validSeq [.val 3, .val 1] = true ∧
    ∃ y : List ℚ,
      lorenz_curve [.val 3, .val 1] = .ok (linspace01 2, y) ∧
      (∀ i : ℕ, i < 2 + 1 → (linspace01 2)[i]? = some ((i : ℚ) / (2 : ℚ))) ∧
      y.length = 2 + 1 ∧
      y.Chain' (· ≤ ·) ∧
      y.head? = some 0 ∧
      y.getLast? = some 1 ∧
      ((floatVals [.val 3, .val 1]).sum = 0 → y = linspace01 2) :=
  ⟨by decide, lorenz_curve_shape [.val 3, .val 1] (by decide)⟩

theorem sum_take_mul_length_le {l : List ℚ} (hs : l.Sorted (· ≤ ·)) {k : ℕ}
    (hk : k ≤ l.length) :
    (l.take k).sum * (l.length : ℚ) ≤ (k : ℚ) * l.sum := by
  have hsum : l.sum = (l.take k).sum + (l.drop k).sum := by
    conv_lhs => rw [← List.take_append_drop k l]
    rw [List.sum_append]
  have hpw0 : List.Pairwise (· ≤ ·) (l.take k ++ l.drop k) := by
    rw [List.take_append_drop]
    exact hs
  have hpw := (List.pairwise_append.mp hpw0).2.2
  have h1 : ∀ b ∈ l.drop k, (l.take k).sum ≤ (k : ℚ) * b := by
    intro b hb
    have := List.sum_le_card_nsmul (l.take k) b (fun x hx => hpw x hx b hb)
    rwa [List.length_take, min_eq_left hk, nsmul_eq_mul] at this
  have h2 : ((l.drop k).length : ℚ) * (l.take k).sum ≤ (k : ℚ) * (l.drop k).sum := by
    have hall : ∀ x ∈ (l.drop k).map (fun b => (k : ℚ) * b), (l.take k).sum ≤ x := by
      intro x hx
      obtain ⟨b, hb, rfl⟩ := List.mem_map.mp hx
      exact h1 b hb
    have hle := List.card_nsmul_le_sum ((l.drop k).map (fun b => (k : ℚ) * b)) _ hall
    rw [List.length_map, nsmul_eq_mul] at hle
    calc ((l.drop k).length : ℚ) * (l.take k).sum ≤ _ := hle
      _ = (k : ℚ) * (l.drop k).sum := by simpa using List.sum_map_mul_left (l.drop k) id (k : ℚ)
  have hd : ((l.drop k).length : ℚ) = (l.length : ℚ) - (k : ℚ) := by
    rw [List.length_drop]
    push_cast [Nat.cast_sub hk]
    ring
  rw [hd] at h2
  nlinarith [h2, hsum]

theorem cumsum_getElem? {l : List ℚ} {i : ℕ} (h : i < l.length) :
    (cumsum l)[i]? = some ((l.take (i + 1)).sum) := by
  induction l generalizing i with
  | nil => simp at h
  | cons a t ih =>
      cases i with
      | zero => simp [cumsum]
      | succ j =>
          rw [cumsum, List.getElem?_cons_succ, List.getElem?_map, ih (by simpa using h),
            Option.map_some']
          simp [List.take_succ_cons, List.sum_cons]

/-- Claim C10: On every valid input, the Lorenz curve lies on or below the
equality line pointwise: `y[i] ≤ x[i]` at every index (the cumulative share
of the `i` lowest-valued entities never exceeds `i/n`). -/
theorem lorenz_curve_le_equality (xs : List FloatIn) (h : validSeq xs = true) :
    ∃ x y : List ℚ, lorenz_curve xs = .ok (x, y) ∧ ∀ i : ℕ, y.getD i 0 ≤ x.getD i 0 := by
  rw [lorenz_ok h]
  by_cases h0 : (floatVals xs).sum = 0
  · rw [if_pos h0]
    exact ⟨_, _, rfl, fun i => le_refl _⟩
  · rw [if_neg h0]
    have hlen : ((floatVals xs).insertionSort (· ≤ ·)).length = xs.length :=
      (List.perm_insertionSort _ _).length_eq.trans (floatVals_length h)
    have hsum : ((floatVals xs).insertionSort (· ≤ ·)).sum = (floatVals xs).sum :=
      (List.perm_insertionSort _ _).sum_eq
    have hpos : 0 < (floatVals xs).sum := lt_of_le_of_ne (vals_sum_nonneg h) (Ne.symm h0)
    have hn0 : xs.length ≠ 0 := fun hz => validSeq_ne_nil h (List.length_eq_zero.mp hz)
    have hnpos : (0 : ℚ) < (xs.length : ℚ) := by exact_mod_cast Nat.pos_of_ne_zero hn0
    refine ⟨_, _, rfl, fun i => ?_⟩
    rcases i with _ | j
    · rw [List.getD_cons_zero, List.getD_eq_getElem?_getD, linspace01_getElem? (by omega)]
      simp
    · rw [List.getD_cons_succ, List.getD_eq_getElem?_getD, List.getD_eq_getElem?_getD]
      by_cases hj : j < xs.length
      · rw [List.getElem?_map, cumsum_getElem? (by rw [hlen]; exact hj), Option.map_some',
          linspace01_getElem? (by omega)]
        simp only [Option.getD_some]
        rw [div_le_div_iff₀ hpos hnpos]
        have hst : (((floatVals xs).insertionSort (· ≤ ·)).take (j + 1)).sum *
            ((xs.length : ℕ) : ℚ) ≤ ((j + 1 : ℕ) : ℚ) *
            ((floatVals xs).insertionSort (· ≤ ·)).sum := by
          have := sum_take_mul_length_le
            (List.sorted_insertionSort (· ≤ ·) (floatVals xs))
            (k := j + 1) (by rw [hlen]; omega)
          rwa [hlen] at this
        rw [hsum] at hst
        exact hst
      · have hy : ((cumsum ((floatVals xs).insertionSort (· ≤ ·))).map
            (fun c => c / (floatVals xs).sum))[j]? = none := by
          apply List.getElem?_eq_none
          rw [List.length_map, cumsum_length, hlen]
          omega
        have hx : (linspace01 xs.length)[j + 1]? = none := by
          apply List.getElem?_eq_none
          rw [linspace01_length]
          omega
        rw [hy, hx]

/-- Witness for C10 at the concrete input `[1, 2, 3]`. -/
theorem lorenz_curve_le_equality_witness :
    validSeq [.val 1, .val 2, .val 3] = true ∧
    ∃ x y : List ℚ, lorenz_curve [.val 1, .val 2, .val 3] = .ok (x, y) ∧
      ∀ i : ℕ, y.getD i 0 ≤ x.getD i 0 :=
  ⟨by decide, lorenz_curve_le_equality [.val 1, .val 2, .val 3] (by decide)⟩

/-- Claim C2: The discrete trapezoidal convention: for the canonical `n = 4`
extreme-concentration input `[0, 0, 0, 100]`, `gini_coefficient` returns
exactly `(n-1)/n = 0.75` (exact over `ℚ`, hence within any tolerance). -/
theorem gini_coefficient_n4_extreme :
    gini_coefficient [.val 0, .val 0, .val 0, .val 100] = .ok (3 / 4) := by
  norm_num [gini_coefficient, lorenz_curve, toNonnegArray, floatVals, FloatIn.finQ,
    FloatIn.isNonFinite, linspace01, List.insertionSort, List.orderedInsert, cumsum, setLast,
    trapezoid, List.range_succ, List.filterMap_cons, List.length_cons]

theorem insertionSort_replicate (n : ℕ) (q : ℚ) :
    (List.replicate n q).insertionSort (· ≤ ·) = List.replicate n q := by
  have hp := List.perm_insertionSort (· ≤ ·) (List.replicate n q)
  refine List.eq_replicate_iff.mpr ⟨?_, ?_⟩
  · rw [hp.length_eq, List.length_replicate]
  · exact fun b hb => List.eq_of_mem_replicate (hp.mem_iff.mp hb)

theorem cumsum_replicate (n : ℕ) (q : ℚ) :
    cumsum (List.replicate n q) = (List.range n).map (fun i : ℕ => ((i : ℚ) + 1) * q) := by
  induction n with
  | zero => rfl
  | succ m ih =>
      rw [List.replicate_succ, cumsum, ih, List.range_succ_eq_map, List.map_cons,
        List.map_map, List.map_map]
      congr 1
      · norm_num
      · refine List.map_congr_left fun i hi => ?_
        simp only [Function.comp_apply]
        push_cast
        ring

theorem floatVals_cons_val (q : ℚ) (t : List FloatIn) :
    floatVals (FloatIn.val q :: t) = q :: floatVals t := by
  simp [floatVals, List.filterMap_cons, FloatIn.finQ]

theorem floatVals_replicate (n : ℕ) (q : ℚ) :
    floatVals (List.replicate n (FloatIn.val q)) = List.replicate n q := by
  induction n with
  | zero => rfl
  | succ m ih => rw [List.replicate_succ, floatVals_cons_val, ih, List.replicate_succ]

theorem linspace01_ne_nil (n : ℕ) : linspace01 n ≠ [] := by
  intro hz
  have := linspace01_length n
  rw [hz] at this
  simp at this

theorem trapezoid_linspace01 {n : ℕ} (hn : 1 ≤ n) :
    trapezoid (linspace01 n) (linspace01 n) = 1 / 2 := by
  have hne := linspace01_ne_nil n
  have hlast : (linspace01 n).getLast hne = 1 := by
    have h1 := linspace01_getLast? hn
    rw [List.getLast?_eq_getLast _ hne, Option.some_inj] at h1
    exact h1
  have hhead : (linspace01 n).head hne = 0 := by
    have h1 := linspace01_head? n
    rw [List.head?_eq_head hne, Option.some_inj] at h1
    exact h1
  rw [trapezoid_self hne, hlast, hhead]
  norm_num

theorem validSeq_replicate {n : ℕ} {q : ℚ} (hn : 1 ≤ n) (hq : 0 ≤ q) :
    validSeq (List.replicate n (FloatIn.val q)) = true := by
  rw [validSeq, Bool.and_eq_true, List.all_eq_true]
  constructor
  · cases n with
    | zero => omega
    | succ m => simp [List.replicate_succ]
  · intro a ha
    have haq := List.eq_of_mem_replicate ha
    subst haq
    simpa using hq

theorem lorenz_curve_replicate {n : ℕ} {q : ℚ} (hn : 1 ≤ n) (hq : 0 ≤ q) :
    lorenz_curve (List.replicate n (FloatIn.val q)) = .ok (linspace01 n, linspace01 n) := by
  rw [lorenz_ok (validSeq_replicate hn hq), floatVals_replicate, List.length_replicate]
  by_cases h0 : (List.replicate n q).sum = 0
  · rw [if_pos h0]
  · rw [if_neg h0]
    have hq0 : q ≠ 0 := by
      intro hz
      subst hz
      exact h0 (by simp [List.sum_replicate])
    have hn0 : ((n : ℚ)) ≠ 0 := by exact_mod_cast Nat.one_le_iff_ne_zero.mp hn
    have hy : (0 : ℚ) :: (cumsum ((List.replicate n q).insertionSort (· ≤ ·))).map
        (fun c => c / (List.replicate n q).sum) = linspace01 n := by
      rw [insertionSort_replicate, cumsum_replicate, List.sum_replicate, List.map_map,
        linspace01, List.range_succ_eq_map, List.map_cons, List.map_map]
      congr 1
      · norm_num
      · refine List.map_congr_left fun i hi => ?_
        simp only [Function.comp_apply, nsmul_eq_mul]
        rw [mul_div_mul_right _ _ hq0]
        push_cast
        ring
    rw [hy]

/-- Claim C9: `gini_coefficient` returns exactly `0` for every constant
non-negative sequence (`replicate n q`, `n ≥ 1`, `q ≥ 0`), and in particular
for every single-element sequence regardless of the (valid, i.e. finite
non-negative) value of that element. -/
theorem gini_coefficient_constant (n : ℕ) (q : ℚ) (hn : 1 ≤ n) (hq : 0 ≤ q) :
    gini_coefficient (List.replicate n (FloatIn.val q)) = .ok 0 ∧
    gini_coefficient [FloatIn.val q] = .ok 0 := by
  have key : ∀ m : ℕ, 1 ≤ m → gini_coefficient (List.replicate m (FloatIn.val q)) = .ok 0 := by
    intro m hm
    rw [gini_coefficient, lorenz_curve_replicate hm hq]
    simp only [trapezoid_linspace01 hm]
    norm_num
  exact ⟨key n hn, key 1 le_rfl⟩

/-- Witness for C9 at `n = 4`, `q = 5` (i.e. the constant sequence
`[5, 5, 5, 5]` and the singleton `[5]`). -/
theorem gini_coefficient_constant_witness :
    (1 ≤ 4 ∧ (0 : ℚ) ≤ 5) ∧
    (gini_coefficient (List.replicate 4 (FloatIn.val 5)) = .ok 0 ∧
     gini_coefficient [FloatIn.val 5] = .ok 0) :=
  ⟨⟨by norm_num, by norm_num⟩, gini_coefficient_constant 4 5 (by norm_num) (by norm_num)⟩
theorem top_share_ok {xs : List FloatIn} {p : ℚ} (hv : validSeq xs = true)
    (hp : 0 < p ∧ p ≤ 1) :
    top_share xs p =
      if (floatVals xs).sum = 0 then .ok 0
      else .ok (((((floatVals xs).insertionSort (· ≤ ·)).reverse.take
        ((⌈((floatVals xs).length : ℚ) * p⌉).toNat)).sum) / (floatVals xs).sum) := by
  rw [top_share, if_neg (not_not_intro hp), toNonnegArray_ok hv]

/-- Claim C4: For every valid sequence and fraction `p ∈ (0, 1]`: if the total
is zero, `top_share` returns `.ok 0` rather than an error; otherwise it
returns the fraction of the total held by the top `ceil(n·p)` highest-valued
entities — formally, the values split into `picked ++ rest` (up to
permutation) with `picked` of size `ceil(n·p)`, every element of `picked` at
least every element of `rest`, and the result is `picked.sum / total`. -/
theorem top_share_spec (xs : List FloatIn) (p : ℚ) (hv : validSeq xs = true)
    (hp : 0 < p ∧ p ≤ 1) :
    ((floatVals xs).sum = 0 → top_share xs p = .ok 0) ∧
    ((floatVals xs).sum ≠ 0 → ∃ picked rest : List ℚ,
      (floatVals xs).Perm (picked ++ rest) ∧
      picked.length = (⌈((floatVals xs).length : ℚ) * p⌉).toNat ∧
      (∀ a ∈ picked, ∀ b ∈ rest, b ≤ a) ∧
      top_share xs p = .ok (picked.sum / (floatVals xs).sum)) := by
  constructor
  · intro h0
    rw [top_share_ok hv hp, if_pos h0]
  · intro h0
    set k := (⌈((floatVals xs).length : ℚ) * p⌉).toNat with hkdef
    set rev := ((floatVals xs).insertionSort (· ≤ ·)).reverse with hrev
    have hk : k ≤ (floatVals xs).length := by
      have hn0 : (0 : ℚ) ≤ ((floatVals xs).length : ℚ) := by positivity
      have h1 : ((floatVals xs).length : ℚ) * p ≤ ((floatVals xs).length : ℚ) := by
        nlinarith [hp.1, hp.2]
      have h2 : ⌈((floatVals xs).length : ℚ) * p⌉ ≤ ((floatVals xs).length : ℤ) := by
        calc ⌈((floatVals xs).length : ℚ) * p⌉ ≤ ⌈((floatVals xs).length : ℚ)⌉ :=
              Int.ceil_le_ceil h1
          _ = ((floatVals xs).length : ℤ) := Int.ceil_natCast _
      exact Int.toNat_le.mpr h2
    have hrevlen : rev.length = (floatVals xs).length := by
      rw [hrev, List.length_reverse, (List.perm_insertionSort (· ≤ ·) (floatVals xs)).length_eq]
    have hpw : List.Pairwise (fun a b => b ≤ a) rev := by
      rw [hrev, List.pairwise_reverse]
      exact List.sorted_insertionSort (· ≤ ·) (floatVals xs)
    have hsplit : rev.take k ++ rev.drop k = rev := List.take_append_drop k rev
    refine ⟨rev.take k, rev.drop k, ?_, ?_, ?_, ?_⟩
    · rw [hsplit, hrev]
      exact ((List.perm_insertionSort (· ≤ ·) (floatVals xs)).symm).trans
        (List.reverse_perm _).symm
    · rw [List.length_take, hrevlen, min_eq_left hk]
    · have hpw2 : List.Pairwise (fun a b => b ≤ a) (rev.take k ++ rev.drop k) := by
        rw [hsplit]; exact hpw
      exact (List.pairwise_append.mp hpw2).2.2
    · rw [top_share_ok hv hp, if_neg h0]

/-- Witness for C4 at `[1, 2, 3, 4]`, `p = 1/2` (the spec example:
`top 2 of 4` values hold share `7/10`; the concrete evaluation
`top_share = .ok (7/10)` is checked separately below). -/
theorem top_share_spec_witness :
    validSeq [.val 1, .val 2, .val 3, .val 4] = true ∧
    ((0 : ℚ) < 1 / 2 ∧ (1 : ℚ) / 2 ≤ 1) ∧
    (((floatVals [.val 1, .val 2, .val 3, .val 4]).sum = 0 →
        top_share [.val 1, .val 2, .val 3, .val 4] (1 / 2) = .ok 0) ∧
     ((floatVals [.val 1, .val 2, .val 3, .val 4]).sum ≠ 0 →
        ∃ picked rest : List ℚ,
          (floatVals [.val 1, .val 2, .val 3, .val 4]).Perm (picked ++ rest) ∧
          picked.length =
            (⌈((floatVals [.val 1, .val 2, .val 3, .val 4]).length : ℚ) * (1 / 2)⌉).toNat ∧
          (∀ a ∈ picked, ∀ b ∈ rest, b ≤ a) ∧
          top_share [.val 1, .val 2, .val 3, .val 4] (1 / 2) =
            .ok (picked.sum / (floatVals [.val 1, .val 2, .val 3, .val 4]).sum))) :=
  ⟨by decide, ⟨by norm_num, by norm_num⟩,
    top_share_spec [.val 1, .val 2, .val 3, .val 4] (1 / 2) (by decide)
      ⟨by norm_num, by norm_num⟩⟩

/-- The spec example pinned concretely: `topShare([1,2,3,4], 0.5) = 0.7`. -/
theorem top_share_example_eval :
    top_share [.val 1, .val 2, .val 3, .val 4] (1 / 2) = .ok (7 / 10) := by
  norm_num [top_share, toNonnegArray, floatVals, FloatIn.finQ, FloatIn.isNonFinite,
    List.insertionSort, List.orderedInsert, List.filterMap_cons, List.length_cons,
    Int.toNat, List.take_succ_cons, List.take_zero]

theorem toNonnegArray_err {xs : List FloatIn}
    (hbad : xs = [] ∨ (∃ a ∈ xs, a.isNonFinite = true) ∨ ∃ q : ℚ, FloatIn.val q ∈ xs ∧ q < 0) :
    ∃ e, toNonnegArray xs = .error e ∧ e.isInvalidIn = true := by
  rcases hbad with rfl | ⟨a, ha, hna⟩ | ⟨q, hq, hneg⟩
  · exact ⟨.emptyInput, rfl, rfl⟩
  · have hne : xs.isEmpty = false := by
      cases xs with
      | nil => simp at ha
      | cons b t => rfl
    have hany : xs.any FloatIn.isNonFinite = true := List.any_eq_true.mpr ⟨a, ha, hna⟩
    exact ⟨.nonFiniteInput, by rw [toNonnegArray]; simp [hne, hany], rfl⟩
  · have hne : xs.isEmpty = false := by
      cases xs with
      | nil => simp at hq
      | cons b t => rfl
    by_cases hnf : xs.any FloatIn.isNonFinite = true
    · exact ⟨.nonFiniteInput, by rw [toNonnegArray]; simp [hne, hnf], rfl⟩
    · have hanyneg : (floatVals xs).any (fun q => decide (q < 0)) = true :=
        List.any_eq_true.mpr ⟨q, mem_floatVals.mpr hq, by simpa using hneg⟩
      refine ⟨.negativeInput, ?_, rfl⟩
      have hnf' : xs.any FloatIn.isNonFinite = false := by
        simpa [Bool.not_eq_true] using hnf
      rw [toNonnegArray]
      simp [hne, hnf', hanyneg]

/-- Claim C5: Every malformed numeric sequence — empty, containing a
non-finite value (NaN/±Inf), or containing a negative value — makes
`lorenz_curve`, `gini_coefficient` and `top_share` (at any fraction) fail
with an `InvalidInput`-class error, never a silently repaired result; and
`top_share` fails with an `InvalidInput`-class error (`badTopPct`) for every
fraction outside `(0, 1]`, on every sequence. -/
theorem invalid_input_errors (xs : List FloatIn) (p : ℚ)
    (hbad : xs = [] ∨ (∃ a ∈ xs, a.isNonFinite = true) ∨ ∃ q : ℚ, FloatIn.val q ∈ xs ∧ q < 0) :
    (∃ e, lorenz_curve xs = .error e ∧ e.isInvalidIn = true) ∧
    (∃ e, gini_coefficient xs = .error e ∧ e.isInvalidIn = true) ∧
    (∃ e, top_share xs p = .error e ∧ e.isInvalidIn = true) ∧
    (∀ (ys : List FloatIn) (f : ℚ), ¬(0 < f ∧ f ≤ 1) →
      top_share ys f = .error .badTopPct ∧ Err.badTopPct.isInvalidIn = true) := by
  obtain ⟨e, he, hi⟩ := toNonnegArray_err hbad
  have hlor : lorenz_curve xs = .error e := by rw [lorenz_curve, he]
  refine ⟨⟨e, hlor, hi⟩, ⟨e, by rw [gini_coefficient, hlor], hi⟩, ?_, ?_⟩
  · by_cases hp : 0 < p ∧ p ≤ 1
    · exact ⟨e, by rw [top_share, if_neg (not_not_intro hp), he], hi⟩
    · exact ⟨.badTopPct, by rw [top_share, if_pos hp], rfl⟩
  · intro ys f hf
    exact ⟨by rw [top_share, if_pos hf], rfl⟩

/-- Witness for C5 at the negative singleton `[-1]` with fraction `1/2`. -/
theorem invalid_input_errors_witness :
    (∃ e, lorenz_curve [.val (-1)] = .error e ∧ e.isInvalidIn = true) ∧
    (∃ e, gini_coefficient [.val (-1)] = .error e ∧ e.isInvalidIn = true) ∧
    (∃ e, top_share [.val (-1)] (1 / 2) = .error e ∧ e.isInvalidIn = true) ∧
    (∀ (ys : List FloatIn) (f : ℚ), ¬(0 < f ∧ f ≤ 1) →
      top_share ys f = .error .badTopPct ∧ Err.badTopPct.isInvalidIn = true) :=
  invalid_input_errors [.val (-1)] (1 / 2)
    (Or.inr (Or.inr ⟨-1, List.mem_singleton.mpr rfl, by norm_num⟩))

example : top_share [.val 1, .val 2, .val 3, .val 4] (1 / 2) = .ok (7 / 10) := by
  norm_num [top_share, toNonnegArray, floatVals, FloatIn.finQ, FloatIn.isNonFinite,
    List.insertionSort, List.orderedInsert, List.filterMap_cons, List.length_cons,
    Int.toNat, List.take_succ_cons, List.take_zero]
example : lorenz_curve [.val 0, .val 0] = .ok ([0, 1 / 2, 1], [0, 1 / 2, 1]) := by
  norm_num [lorenz_curve, toNonnegArray, floatVals, FloatIn.finQ, FloatIn.isNonFinite,
    linspace01, List.insertionSort, List.orderedInsert, List.range_succ, List.filterMap_cons]
example : top_share [.val 1, .nan] (1 / 2) = .error .nonFiniteInput := by
  norm_num [top_share, toNonnegArray, floatVals, FloatIn.finQ, FloatIn.isNonFinite]
example : top_share [.val 1] 0 = .error .badTopPct := by
  norm_num [top_share]

/-! ### Group Risk Engine: data model and `compute_group_stats` -/

/-- A cell of the tabular dataset: missing (`None`/NaN), non-numeric text,
or a numeric value. -/
inductive CellVal
  | null
  | text (s : String)
  | num (q : ℚ)
deriving DecidableEq

/-- `pd.isna` on one cell. -/
def CellVal.isNA : CellVal → Bool
  | .null => true
  | _ => false

/-- `pd.to_numeric(errors="coerce")` on one cell: numeric cells keep their
value; missing cells and non-numeric text coerce to NaN (`none`). -/
def toNumericCell : CellVal → Option ℚ
  | .num q => some q
  | _ => none

/-- The in-memory table: the set of column names, and one cell per
(row, column). -/
structure DataFrame where
  cols : List String
  rows : List (String → CellVal)

def REQUIRED_COLUMNS : List String :=
  ["Tax ID", "Total Complaints", "Total Substantiated Complaints"]

def ALLOWED_RQ2_GROUP_COLS : List String := ["Current Command", "Current Rank"]

/-- `_validate_df`: every required column must be present (the error payload
lists the missing ones; its ordering is immaterial to every property
below). -/
def validate_df (df : DataFrame) : Except Err Unit :=
  if REQUIRED_COLUMNS.all (fun c => decide (c ∈ df.cols)) then .ok ()
  else .error (.missingColumns (REQUIRED_COLUMNS.filter (fun c => decide (c ∉ df.cols))))

/-- `_validate_group_col`: the grouping field must exist in the table and be
on the two-element allow-list. -/
def validate_group_col (df : DataFrame) (group_col : String) : Except Err Unit :=
  if group_col ∉ df.cols then .error (.groupColNotFound group_col)
  else if group_col ∉ ALLOWED_RQ2_GROUP_COLS then .error (.groupColNotAllowed group_col)
  else .ok ()

/-- One row of the working frame `tmp` after numeric coercion: group key,
whether the entity-id cell is non-missing, and the two coerced measures. -/
structure TmpRow where
  key : CellVal
  idPresent : Bool
  total : ℚ
  subst : ℚ
deriving DecidableEq

/-- One row of the grouped frame, before the derived ratio columns. -/
structure GroupRow where
  key : CellVal
  officers : ℕ
  total_complaints : ℚ
  total_substantiated : ℚ
deriving DecidableEq

/-- One row of the result table, including the two derived ratio columns;
`none` models the NaN sentinel (or, for `avg` on a zero-officer group, the
non-finite value the source division would produce). -/
structure GroupRec where
  key : CellVal
  officers : ℕ
  total_complaints : ℚ
  total_substantiated : ℚ
  avg_complaints_per_officer : Option ℚ
  substantiated_per_100_complaints : Option ℚ
deriving DecidableEq

/-- The distinct group keys of `groupby(..., dropna=False)` — missing keys
form their own group.  First-appearance traversal order; the order is
immaterial to every property below because the result table is re-sorted and
the medians are order-insensitive. -/
def dedupKeysGo : List CellVal → List CellVal → List CellVal
  | [], _ => []
  | a :: t, seen => if a ∈ seen then dedupKeysGo t seen else a :: dedupKeysGo t (a :: seen)

def dedupKeys (l : List CellVal) : List CellVal := dedupKeysGo l []

/-- `.agg(officers=(id,"count"), total_complaints=(total,"sum"),
total_substantiated=(subst,"sum"))` for the rows of one group; `count`
counts non-missing id cells. -/
def aggFor (tmp : List TmpRow) (k : CellVal) : GroupRow :=
  let g := tmp.filter (fun r => decide (r.key = k))
  { key := k
    officers := (g.filter (fun r => r.idPresent)).length
    total_complaints := (g.map (fun r => r.total)).sum
    total_substantiated := (g.map (fun r => r.subst)).sum }

/-- The derived ratio columns: `avg = total/officers` (non-finite — `none` —
when the group has zero counted officers), and
`per100 = np.where(total > 0, subst/total*100, nan)`. -/
def addDerived (g : GroupRow) : GroupRec :=
  { key := g.key
    officers := g.officers
    total_complaints := g.total_complaints
    total_substantiated := g.total_substantiated
    avg_complaints_per_officer :=
      if g.officers = 0 then none else some (g.total_complaints / (g.officers : ℚ))
    substantiated_per_100_complaints :=
      if 0 < g.total_complaints
      then some (g.total_substantiated / g.total_complaints * 100)
      else none }

/-- `np.nanmedian` over a float column (`none` = NaN): drop the NaNs, sort,
and take the middle element (odd count) or the mean of the two middle
elements (even count); NaN when nothing is left. -/
def nanmedian (l : List (Option ℚ)) : Option ℚ :=
  let v := l.filterMap id
  if v.length = 0 then none
  else
    let s := v.insertionSort (· ≤ ·)
    if v.length % 2 = 1 then some (s.getD (v.length / 2) 0)
    else some ((s.getD (v.length / 2 - 1) 0 + s.getD (v.length / 2) 0) / 2)

/-- `sort_values("avg_complaints_per_officer")`: ascending on the `avg`
column with NaN placed last. -/
def recLEb (a b : GroupRec) : Bool :=
  match a.avg_complaints_per_officer, b.avg_complaints_per_officer with
  | some x, some y => decide (x ≤ y)
  | some _, none => true
  | none, some _ => false
  | none, none => true

/-- The aggregated result: the filtered + sorted group table, the grouping
field, and the two nan-aware medians over the retained groups. -/
structure GroupStats where
  table : List GroupRec
  group_col : String
  median_avg_complaints : Option ℚ
  median_subst_per_100 : Option ℚ
deriving DecidableEq

/-- `compute_group_stats`: validate the schema and the grouping field;
coerce both measures (whole-call failure on any unparseable or negative
value); group by the key with missing keys kept; filter by the minimum group
size; add the derived ratios; compute the nan-aware medians over the
retained groups (NaN when none survive); sort by `avg`. -/
def compute_group_stats (df : DataFrame) (group_col : String) (min_officers : ℤ)
    (officer_id_col total_col subst_col : String) : Except Err GroupStats :=
  match validate_df df with
  | .error e => .error e
  | .ok _ =>
  match validate_group_col df group_col with
  | .error e => .error e
  | .ok _ =>
    let coerced := df.rows.map (fun r =>
      (r group_col, r officer_id_col, toNumericCell (r total_col), toNumericCell (r subst_col)))
    if coerced.any (fun t => t.2.2.1.isNone || t.2.2.2.isNone) then .error .nonNumericMeasure
    else
      let tmp : List TmpRow := coerced.map (fun t =>
        { key := t.1, idPresent := !(t.2.1.isNA), total := t.2.2.1.getD 0,
          subst := t.2.2.2.getD 0 })
      if tmp.any (fun r => decide (r.total < 0) || decide (r.subst < 0)) then
        .error .negativeMeasure
      else
        let grouped := (dedupKeys (tmp.map (fun r => r.key))).map (aggFor tmp)
        let kept := grouped.filter (fun g => decide (min_officers ≤ (g.officers : ℤ)))
        let derived := kept.map addDerived
        let med_x := if derived.length ≠ 0
          then nanmedian (derived.map (fun g => g.avg_complaints_per_officer)) else none
        let med_y := if derived.length ≠ 0
          then nanmedian (derived.map (fun g => g.substantiated_per_100_complaints)) else none
        .ok { table := derived.insertionSort (fun a b => recLEb a b = true)
              group_col := group_col
              median_avg_complaints := med_x
              median_subst_per_100 := med_y }

/-- The working frame `tmp` as a single map over the input rows (the
composition of the column selection and the numeric coercion). -/
def tmpRows (df : DataFrame) (group_col officer_id_col total_col subst_col : String) :
    List TmpRow :=
  df.rows.map (fun r =>
    { key := r group_col, idPresent := !(r officer_id_col).isNA,
      total := (toNumericCell (r total_col)).getD 0,
      subst := (toNumericCell (r subst_col)).getD 0 })

/-- The grouped frame before filtering: one `GroupRow` per distinct key. -/
def groupRowsOf (df : DataFrame) (group_col officer_id_col total_col subst_col : String) :
    List GroupRow :=
  (dedupKeys ((tmpRows df group_col officer_id_col total_col subst_col).map
    (fun r => r.key))).map (aggFor (tmpRows df group_col officer_id_col total_col subst_col))

/-- The retained (post-filter) groups with derived columns, pre-sort. -/
def keptOf (df : DataFrame) (group_col : String) (min_officers : ℤ)
    (officer_id_col total_col subst_col : String) : List GroupRec :=
  ((groupRowsOf df group_col officer_id_col total_col subst_col).filter
    (fun g => decide (min_officers ≤ (g.officers : ℤ)))).map addDerived

theorem dedupKeysGo_mem {l seen : List CellVal} {a : CellVal} :
    a ∈ dedupKeysGo l seen ↔ a ∈ l ∧ a ∉ seen := by
  induction l generalizing seen with
  | nil => simp [dedupKeysGo]
  | cons b t ih =>
      rw [dedupKeysGo]
      by_cases hb : b ∈ seen
      · rw [if_pos hb, ih]
        constructor
        · rintro ⟨h1, h2⟩
          exact ⟨List.mem_cons_of_mem b h1, h2⟩
        · rintro ⟨h1, h2⟩
          rcases List.mem_cons.mp h1 with rfl | h1
          · exact absurd hb h2
          · exact ⟨h1, h2⟩
      · rw [if_neg hb]
        constructor
        · intro h1
          rcases List.mem_cons.mp h1 with rfl | h1
          · exact ⟨List.mem_cons_self a t, hb⟩
          · obtain ⟨ht, hns⟩ := ih.mp h1
            exact ⟨List.mem_cons_of_mem b ht,
              fun hs => hns (List.mem_cons_of_mem b hs)⟩
        · rintro ⟨h1, h2⟩
          by_cases hab : a = b
          · subst hab
            exact List.mem_cons_self a _
          · rcases List.mem_cons.mp h1 with rfl | h1
            · exact absurd rfl hab
            · refine List.mem_cons_of_mem b (ih.mpr ⟨h1, ?_⟩)
              intro hs
              rcases List.mem_cons.mp hs with rfl | hs
              · exact hab rfl
              · exact h2 hs

theorem dedupKeysGo_nodup (l seen : List CellVal) : (dedupKeysGo l seen).Nodup := by
  induction l generalizing seen with
  | nil => exact List.nodup_nil
  | cons b t ih =>
      rw [dedupKeysGo]
      by_cases hb : b ∈ seen
      · rw [if_pos hb]
        exact ih seen
      · rw [if_neg hb]
        refine List.nodup_cons.mpr ⟨?_, ih (b :: seen)⟩
        intro hmem
        exact (dedupKeysGo_mem.mp hmem).2 (List.mem_cons_self b seen)

theorem dedupKeys_mem {l : List CellVal} {a : CellVal} : a ∈ dedupKeys l ↔ a ∈ l := by
  rw [dedupKeys, dedupKeysGo_mem]
  simp

theorem dedupKeys_nodup (l : List CellVal) : (dedupKeys l).Nodup :=
  dedupKeysGo_nodup l []

theorem nanmedian_perm {l l' : List (Option ℚ)} (h : l.Perm l') :
    nanmedian l = nanmedian l' := by
  have hv : (l.filterMap id).Perm (l'.filterMap id) := h.filterMap id
  have hlen : (l.filterMap id).length = (l'.filterMap id).length := hv.length_eq
  have hsort : (l.filterMap id).insertionSort (· ≤ ·) =
      (l'.filterMap id).insertionSort (· ≤ ·) :=
    List.eq_of_perm_of_sorted
      ((List.perm_insertionSort _ _).trans (hv.trans (List.perm_insertionSort _ _).symm))
      (List.sorted_insertionSort _ _) (List.sorted_insertionSort _ _)
  simp only [nanmedian]
  rw [hlen, hsort]

theorem validate_df_ok {df : DataFrame} (hreq : ∀ c ∈ REQUIRED_COLUMNS, c ∈ df.cols) :
    validate_df df = .ok () := by
  rw [validate_df, if_pos]
  rw [List.all_eq_true]
  intro c hc
  simpa using hreq c hc

theorem validate_group_col_ok {df : DataFrame} {gc : String} (hgc : gc ∈ df.cols)
    (hga : gc ∈ ALLOWED_RQ2_GROUP_COLS) : validate_group_col df gc = .ok () := by
  rw [validate_group_col, if_neg (not_not_intro hgc), if_neg (not_not_intro hga)]

/-- The shape of a successful `compute_group_stats` call, with both
data-quality checks discharged. -/
theorem compute_group_stats_ok {df : DataFrame} {gc : String} {m : ℤ} {ic tc sc : String}
    (hreq : ∀ c ∈ REQUIRED_COLUMNS, c ∈ df.cols)
    (hgc : gc ∈ df.cols) (hga : gc ∈ ALLOWED_RQ2_GROUP_COLS)
    (hnum : ∀ r ∈ df.rows, (toNumericCell (r tc)).isSome = true ∧
      (toNumericCell (r sc)).isSome = true)
    (hnn : ∀ r ∈ df.rows, 0 ≤ (toNumericCell (r tc)).getD 0 ∧
      0 ≤ (toNumericCell (r sc)).getD 0) :
    compute_group_stats df gc m ic tc sc =
      .ok { table := (keptOf df gc m ic tc sc).insertionSort (fun a b => recLEb a b = true),
            group_col := gc,
            median_avg_complaints := if (keptOf df gc m ic tc sc).length ≠ 0
              then nanmedian ((keptOf df gc m ic tc sc).map
                (fun g => g.avg_complaints_per_officer)) else none,
            median_subst_per_100 := if (keptOf df gc m ic tc sc).length ≠ 0
              then nanmedian ((keptOf df gc m ic tc sc).map
                (fun g => g.substantiated_per_100_complaints)) else none } := by
  have h1 : (df.rows.map (fun r =>
      (r gc, r ic, toNumericCell (r tc), toNumericCell (r sc)))).any
      (fun t => t.2.2.1.isNone || t.2.2.2.isNone) = false := by
    rw [List.any_eq_false]
    intro t ht
    rw [List.mem_map] at ht
    obtain ⟨r, hr, rfl⟩ := ht
    obtain ⟨hs1, hs2⟩ := hnum r hr
    cases hx1 : toNumericCell (r tc) with
    | none => rw [hx1] at hs1; simp at hs1
    | some q1 =>
        cases hx2 : toNumericCell (r sc) with
        | none => rw [hx2] at hs2; simp at hs2
        | some q2 => simp [hx1, hx2]
  have h2 : (df.rows.map (fun r =>
      ({ key := r gc, idPresent := !((r ic).isNA), total := (toNumericCell (r tc)).getD 0,
         subst := (toNumericCell (r sc)).getD 0 } : TmpRow))).any
      (fun r => decide (r.total < 0) || decide (r.subst < 0)) = false := by
    rw [List.any_eq_false]
    intro t ht
    rw [List.mem_map] at ht
    obtain ⟨r, hr, rfl⟩ := ht
    obtain ⟨hn1, hn2⟩ := hnn r hr
    simp only [Bool.or_eq_true, decide_eq_true_eq, not_or, not_lt]
    exact ⟨hn1, hn2⟩
  rw [compute_group_stats, validate_df_ok hreq, validate_group_col_ok hgc hga]
  simp only [h1, Bool.false_eq_true, if_false, h2, keptOf, groupRowsOf, tmpRows,
    List.map_map, Function.comp_def]

/-- Claim C6: Requesting any grouping field outside the two-element allow-list
`{"Current Command", "Current Rank"}` fails with the
`ConfigurationError`-class error `groupColNotAllowed`, even when the field is
present as a column of the (schema-valid) table; no aggregation result is
produced. -/
theorem compute_group_stats_disallowed_col (df : DataFrame) (gc : String) (m : ℤ)
    (ic tc sc : String)
    (hreq : ∀ c ∈ REQUIRED_COLUMNS, c ∈ df.cols)
    (hgc : gc ∈ df.cols) (hga : gc ∉ ALLOWED_RQ2_GROUP_COLS) :
    compute_group_stats df gc m ic tc sc = .error (.groupColNotAllowed gc) ∧
    (Err.groupColNotAllowed gc).isConfigErr = true := by
  refine ⟨?_, rfl⟩
  have h2 : validate_group_col df gc = .error (.groupColNotAllowed gc) := by
    rw [validate_group_col, if_neg (not_not_intro hgc), if_pos hga]
  rw [compute_group_stats, validate_df_ok hreq, h2]

/-- Witness for C6: `"Officer Race"` is a column of the table but not an
allowed grouping field. -/
theorem compute_group_stats_disallowed_col_witness :
    (∀ c ∈ REQUIRED_COLUMNS,
      c ∈ ["Tax ID", "Total Complaints", "Total Substantiated Complaints",
        "Officer Race"]) ∧
    "Officer Race" ∈ ["Tax ID", "Total Complaints", "Total Substantiated Complaints",
      "Officer Race"] ∧
    "Officer Race" ∉ ALLOWED_RQ2_GROUP_COLS ∧
    (compute_group_stats
        { cols := ["Tax ID", "Total Complaints", "Total Substantiated Complaints",
            "Officer Race"],
          rows := [] } "Officer Race" 200 "Tax ID" "Total Complaints"
          "Total Substantiated Complaints" = .error (.groupColNotAllowed "Officer Race") ∧
      (Err.groupColNotAllowed "Officer Race").isConfigErr = true) :=
  ⟨by decide, by decide, by decide,
    compute_group_stats_disallowed_col
      { cols := ["Tax ID", "Total Complaints", "Total Substantiated Complaints",
          "Officer Race"],
        rows := [] } "Officer Race" 200 "Tax ID" "Total Complaints"
      "Total Substantiated Complaints" (by decide) (by decide) (by decide)⟩

/-- Claim C7: If coercion of either measure column produces any non-numeric
value, or either coerced column contains a negative value, the whole
aggregation fails with a `DataQualityError`-class error and no (partial)
result is returned. -/
theorem compute_group_stats_bad_measures (df : DataFrame) (gc : String) (m : ℤ)
    (ic tc sc : String)
    (hreq : ∀ c ∈ REQUIRED_COLUMNS, c ∈ df.cols)
    (hgc : gc ∈ df.cols) (hga : gc ∈ ALLOWED_RQ2_GROUP_COLS)
    (hbad : ∃ r ∈ df.rows, toNumericCell (r tc) = none ∨ toNumericCell (r sc) = none ∨
      ∃ q : ℚ, q < 0 ∧ (toNumericCell (r tc) = some q ∨ toNumericCell (r sc) = some q)) :
    ∃ e, compute_group_stats df gc m ic tc sc = .error e ∧ e.isDataQualityErr = true := by
  rw [compute_group_stats, validate_df_ok hreq, validate_group_col_ok hgc hga]
  by_cases hany : (df.rows.map (fun r =>
      (r gc, r ic, toNumericCell (r tc), toNumericCell (r sc)))).any
      (fun t => t.2.2.1.isNone || t.2.2.2.isNone) = true
  · exact ⟨.nonNumericMeasure, by simp [hany], rfl⟩
  · obtain ⟨r, hr, hcase⟩ := hbad
    have hmem : ¬((toNumericCell (r tc)).isNone = true ∨
        (toNumericCell (r sc)).isNone = true) := by
      intro hcon
      apply hany
      rw [List.any_eq_true]
      exact ⟨_, List.mem_map_of_mem _ hr, by rcases hcon with h | h <;> simp [h]⟩
    rcases hcase with h | h | ⟨q, hqneg, hq⟩
    · exact absurd (Or.inl (by simp [h])) hmem
    · exact absurd (Or.inr (by simp [h])) hmem
    · have hany' : (df.rows.map (fun r =>
          (r gc, r ic, toNumericCell (r tc), toNumericCell (r sc)))).any
          (fun t => t.2.2.1.isNone || t.2.2.2.isNone) = false := by
        simpa using hany
      have hnegany : (df.rows.map (fun r =>
          ({ key := r gc, idPresent := !((r ic).isNA),
             total := (toNumericCell (r tc)).getD 0,
             subst := (toNumericCell (r sc)).getD 0 } : TmpRow))).any
          (fun r => decide (r.total < 0) || decide (r.subst < 0)) = true := by
        rw [List.any_eq_true]
        refine ⟨_, List.mem_map_of_mem _ hr, ?_⟩
        rcases hq with hq | hq <;> simp [hq, hqneg]
      refine ⟨.negativeMeasure, ?_, rfl⟩
      simp only [hany', Bool.false_eq_true, if_false, List.map_map, Function.comp_def]
      simp [hnegany]

/-- Witness for C7: a schema-valid one-row table whose volume measure holds
non-numeric text. -/
theorem compute_group_stats_bad_measures_witness :
    (∀ c ∈ REQUIRED_COLUMNS,
      c ∈ ["Tax ID", "Total Complaints", "Total Substantiated Complaints",
        "Current Command"]) ∧
    "Current Command" ∈ ["Tax ID", "Total Complaints", "Total Substantiated Complaints",
      "Current Command"] ∧
    "Current Command" ∈ ALLOWED_RQ2_GROUP_COLS ∧
    (∃ e, compute_group_stats
        { cols := ["Tax ID", "Total Complaints", "Total Substantiated Complaints",
            "Current Command"],
          rows := [fun c => if c = "Total Complaints" then CellVal.text "oops"
            else CellVal.num 1] } "Current Command" 200 "Tax ID" "Total Complaints"
          "Total Substantiated Complaints" = .error e ∧ e.isDataQualityErr = true) :=
  ⟨by decide, by decide, by decide,
    compute_group_stats_bad_measures
      { cols := ["Tax ID", "Total Complaints", "Total Substantiated Complaints",
          "Current Command"],
        rows := [fun c => if c = "Total Complaints" then CellVal.text "oops"
          else CellVal.num 1] } "Current Command" 200 "Tax ID" "Total Complaints"
      "Total Substantiated Complaints" (by decide) (by decide) (by decide)
      ⟨_, List.mem_singleton.mpr rfl, Or.inl rfl⟩⟩

theorem keptOf_mem {df : DataFrame} {gc : String} {m : ℤ} {ic tc sc : String}
    {rec : GroupRec} :
    rec ∈ keptOf df gc m ic tc sc ↔
      ∃ k ∈ dedupKeys ((tmpRows df gc ic tc sc).map (fun r => r.key)),
        m ≤ ((aggFor (tmpRows df gc ic tc sc) k).officers : ℤ) ∧
        rec = addDerived (aggFor (tmpRows df gc ic tc sc) k) := by
  rw [keptOf, groupRowsOf]
  constructor
  · intro hrec
    rw [List.mem_map] at hrec
    obtain ⟨g, hg, rfl⟩ := hrec
    rw [List.mem_filter] at hg
    obtain ⟨hg1, hg2⟩ := hg
    rw [List.mem_map] at hg1
    obtain ⟨k, hk, rfl⟩ := hg1
    exact ⟨k, hk, by simpa using hg2, rfl⟩
  · rintro ⟨k, hk, hoff, rfl⟩
    refine List.mem_map_of_mem addDerived ?_
    rw [List.mem_filter]
    exact ⟨List.mem_map_of_mem _ hk, by simpa using hoff⟩

/-- Claim C1: On every valid input table (schema and grouping field accepted,
both measures numeric and non-negative) and every positive threshold (the
source default is `200`), `compute_group_stats` succeeds, and: the result
table consists of exactly the groups whose entity count is at least the
threshold (every table row meets the threshold, every table row is one of
the aggregated groups, and every aggregated group meeting the threshold
appears); the two stored medians equal the nan-aware median of the
corresponding column of the retained post-filter table; and when no group
survives the filter both medians are the NaN sentinel. -/
theorem compute_group_stats_filter_medians (df : DataFrame) (gc : String) (m : ℤ)
    (ic tc sc : String)
    (hreq : ∀ c ∈ REQUIRED_COLUMNS, c ∈ df.cols)
    (hgc : gc ∈ df.cols) (hga : gc ∈ ALLOWED_RQ2_GROUP_COLS)
    (hnum : ∀ r ∈ df.rows, (toNumericCell (r tc)).isSome = true ∧
      (toNumericCell (r sc)).isSome = true)
    (hnn : ∀ r ∈ df.rows, 0 ≤ (toNumericCell (r tc)).getD 0 ∧
      0 ≤ (toNumericCell (r sc)).getD 0)
    (_hm : 1 ≤ m) :
    ∃ gs : GroupStats, compute_group_stats df gc m ic tc sc = .ok gs ∧
      (∀ rec ∈ gs.table, m ≤ (rec.officers : ℤ)) ∧
      (∀ rec ∈ gs.table, ∃ k ∈ dedupKeys ((tmpRows df gc ic tc sc).map (fun r => r.key)),
        rec = addDerived (aggFor (tmpRows df gc ic tc sc) k)) ∧
      (∀ k ∈ dedupKeys ((tmpRows df gc ic tc sc).map (fun r => r.key)),
        m ≤ ((aggFor (tmpRows df gc ic tc sc) k).officers : ℤ) →
          addDerived (aggFor (tmpRows df gc ic tc sc) k) ∈ gs.table) ∧
      gs.median_avg_complaints =
        nanmedian (gs.table.map (fun g => g.avg_complaints_per_officer)) ∧
      gs.median_subst_per_100 =
        nanmedian (gs.table.map (fun g => g.substantiated_per_100_complaints)) ∧
      (gs.table = [] → gs.median_avg_complaints = none ∧ gs.median_subst_per_100 = none) := by
  refine ⟨_, compute_group_stats_ok hreq hgc hga hnum hnn, ?_⟩
  simp only []
  have hperm : ((keptOf df gc m ic tc sc).insertionSort
      (fun a b => recLEb a b = true)).Perm (keptOf df gc m ic tc sc) :=
    List.perm_insertionSort _ _
  have hmed : ∀ f : GroupRec → Option ℚ,
      (if (keptOf df gc m ic tc sc).length ≠ 0
        then nanmedian ((keptOf df gc m ic tc sc).map f) else none) =
      nanmedian (((keptOf df gc m ic tc sc).insertionSort
        (fun a b => recLEb a b = true)).map f) := by
    intro f
    by_cases hK : (keptOf df gc m ic tc sc).length = 0
    · have hKnil : keptOf df gc m ic tc sc = [] := List.length_eq_zero.mp hK
      rw [if_neg (not_not_intro hK), hKnil]
      rfl
    · rw [if_pos hK]
      exact nanmedian_perm (hperm.map f).symm
  refine ⟨?_, ?_, ?_, hmed _, hmed _, ?_⟩
  · intro rec hrec
    obtain ⟨k, hk, hoff, rfl⟩ := keptOf_mem.mp (hperm.mem_iff.mp hrec)
    simpa using hoff
  · intro rec hrec
    obtain ⟨k, hk, hoff, rfl⟩ := keptOf_mem.mp (hperm.mem_iff.mp hrec)
    exact ⟨k, hk, rfl⟩
  · intro k hk hoff
    exact hperm.mem_iff.mpr (keptOf_mem.mpr ⟨k, hk, hoff, rfl⟩)
  · intro htab
    have hKnil : keptOf df gc m ic tc sc = [] := by
      have := hperm.length_eq
      rw [htab] at this
      exact List.length_eq_zero.mp this.symm
    constructor <;> simp [hKnil]

/-- Claim C8: On every valid input (and a threshold that retains every group,
so that the whole aggregation is visible in the output), `compute_group_stats`
groups the rows by the chosen field with missing/null keys forming their own
group rather than being dropped: every input row's key appears in exactly one
result record, whose entity count is the number of rows of that key with a
non-missing id and whose measure sums range over all rows of that key; a
group with zero volume sum gets the NaN sentinel for `sub_events_per_100`
rather than zero, and a group with positive volume sum gets
`subst/total · 100`. -/
theorem compute_group_stats_grouping (df : DataFrame) (gc : String) (m : ℤ)
    (ic tc sc : String)
    (hreq : ∀ c ∈ REQUIRED_COLUMNS, c ∈ df.cols)
    (hgc : gc ∈ df.cols) (hga : gc ∈ ALLOWED_RQ2_GROUP_COLS)
    (hnum : ∀ r ∈ df.rows, (toNumericCell (r tc)).isSome = true ∧
      (toNumericCell (r sc)).isSome = true)
    (hnn : ∀ r ∈ df.rows, 0 ≤ (toNumericCell (r tc)).getD 0 ∧
      0 ≤ (toNumericCell (r sc)).getD 0)
    (hm : m ≤ 0) :
    ∃ gs : GroupStats, compute_group_stats df gc m ic tc sc = .ok gs ∧
      ∀ r0 ∈ df.rows, ∃ rec ∈ gs.table,
        rec.key = r0 gc ∧
        rec.officers = ((df.rows.filter (fun r => decide (r gc = r0 gc))).filter
          (fun r => !((r ic).isNA))).length ∧
        rec.total_complaints = ((df.rows.filter (fun r => decide (r gc = r0 gc))).map
          (fun r => (toNumericCell (r tc)).getD 0)).sum ∧
        rec.total_substantiated = ((df.rows.filter (fun r => decide (r gc = r0 gc))).map
          (fun r => (toNumericCell (r sc)).getD 0)).sum ∧
        (rec.total_complaints = 0 → rec.substantiated_per_100_complaints = none) ∧
        (0 < rec.total_complaints → rec.substantiated_per_100_complaints =
          some (rec.total_substantiated / rec.total_complaints * 100)) ∧
        (gs.table.map (fun g => g.key)).count (r0 gc) = 1 := by
  refine ⟨_, compute_group_stats_ok hreq hgc hga hnum hnn, ?_⟩
  simp only []
  intro r0 hr0
  have hperm : ((keptOf df gc m ic tc sc).insertionSort
      (fun a b => recLEb a b = true)).Perm (keptOf df gc m ic tc sc) :=
    List.perm_insertionSort _ _
  have hkey : (r0 gc) ∈ (tmpRows df gc ic tc sc).map (fun r => r.key) := by
    rw [tmpRows, List.map_map]
    exact List.mem_map_of_mem _ hr0
  have hdk : (r0 gc) ∈ dedupKeys ((tmpRows df gc ic tc sc).map (fun r => r.key)) :=
    dedupKeys_mem.mpr hkey
  have hoff : m ≤ ((aggFor (tmpRows df gc ic tc sc) (r0 gc)).officers : ℤ) :=
    le_trans hm (Int.natCast_nonneg _)
  have hrecmem : addDerived (aggFor (tmpRows df gc ic tc sc) (r0 gc)) ∈
      keptOf df gc m ic tc sc :=
    keptOf_mem.mpr ⟨r0 gc, hdk, hoff, rfl⟩
  have hG : (tmpRows df gc ic tc sc).filter (fun r => decide (r.key = r0 gc)) =
      (df.rows.filter (fun r => decide (r gc = r0 gc))).map (fun r =>
        ({ key := r gc, idPresent := !((r ic).isNA),
           total := (toNumericCell (r tc)).getD 0,
           subst := (toNumericCell (r sc)).getD 0 } : TmpRow)) := by
    rw [tmpRows, List.filter_map]
    rfl
  have hoff_eq : (aggFor (tmpRows df gc ic tc sc) (r0 gc)).officers =
      ((df.rows.filter (fun r => decide (r gc = r0 gc))).filter
        (fun r => !((r ic).isNA))).length := by
    simp only [aggFor, hG, List.filter_map, List.length_map]
    rfl
  have htot : (aggFor (tmpRows df gc ic tc sc) (r0 gc)).total_complaints =
      ((df.rows.filter (fun r => decide (r gc = r0 gc))).map
        (fun r => (toNumericCell (r tc)).getD 0)).sum := by
    simp only [aggFor, hG, List.map_map]
    rfl
  have hsub : (aggFor (tmpRows df gc ic tc sc) (r0 gc)).total_substantiated =
      ((df.rows.filter (fun r => decide (r gc = r0 gc))).map
        (fun r => (toNumericCell (r sc)).getD 0)).sum := by
    simp only [aggFor, hG, List.map_map]
    rfl
  have hfilter_all : (groupRowsOf df gc ic tc sc).filter
      (fun g => decide (m ≤ (g.officers : ℤ))) = groupRowsOf df gc ic tc sc :=
    List.filter_eq_self.mpr
      (fun g _ => by simpa using le_trans hm (Int.natCast_nonneg _))
  have hmapkey : (keptOf df gc m ic tc sc).map (fun g => g.key) =
      dedupKeys ((tmpRows df gc ic tc sc).map (fun r => r.key)) := by
    rw [keptOf, hfilter_all, groupRowsOf, List.map_map, List.map_map]
    exact (List.map_congr_left (fun k _ => rfl)).trans (List.map_id _)
  have hcount : ((((keptOf df gc m ic tc sc).insertionSort
      (fun a b => recLEb a b = true))).map (fun g => g.key)).count (r0 gc) = 1 := by
    rw [(hperm.map _).count_eq, hmapkey]
    exact List.count_eq_one_of_mem (dedupKeys_nodup _) hdk
  refine ⟨addDerived (aggFor (tmpRows df gc ic tc sc) (r0 gc)),
    hperm.mem_iff.mpr hrecmem, rfl, hoff_eq, htot, hsub, ?_, ?_, hcount⟩
  · intro h0
    simp only [addDerived] at h0 ⊢
    rw [if_neg]
    rw [h0]
    exact lt_irrefl 0
  · intro h0
    simp only [addDerived] at h0 ⊢
    rw [if_pos h0]

/-- A row of the concrete witness table. -/
def wRow (cmd tax tot sub : CellVal) : String → CellVal := fun c =>
  if c = "Current Command" then cmd
  else if c = "Tax ID" then tax
  else if c = "Total Complaints" then tot
  else if c = "Total Substantiated Complaints" then sub
  else CellVal.null

/-- A concrete witness table: commands `A, A, B`, plus one row with a missing
(null) command key and zero volume. -/
def dfW : DataFrame :=
  { cols := ["Tax ID", "Current Command", "Total Complaints",
      "Total Substantiated Complaints"],
    rows := [wRow (.text "A") (.num 1) (.num 2) (.num 1),
             wRow (.text "A") (.num 2) (.num 0) (.num 0),
             wRow (.text "B") (.num 3) (.num 4) (.num 1),
             wRow .null (.num 4) (.num 0) (.num 0)] }

/-- Witness for C1 at `dfW` with threshold `2`. -/
theorem compute_group_stats_filter_medians_witness :
    ((∀ c ∈ REQUIRED_COLUMNS, c ∈ dfW.cols) ∧ "Current Command" ∈ dfW.cols ∧
      "Current Command" ∈ ALLOWED_RQ2_GROUP_COLS ∧ (1 : ℤ) ≤ 2) ∧
    (∃ gs : GroupStats, compute_group_stats dfW "Current Command" 2 "Tax ID"
        "Total Complaints" "Total Substantiated Complaints" = .ok gs ∧
      (∀ rec ∈ gs.table, 2 ≤ (rec.officers : ℤ)) ∧
      (∀ rec ∈ gs.table, ∃ k ∈ dedupKeys ((tmpRows dfW "Current Command" "Tax ID"
          "Total Complaints" "Total Substantiated Complaints").map (fun r => r.key)),
        rec = addDerived (aggFor (tmpRows dfW "Current Command" "Tax ID"
          "Total Complaints" "Total Substantiated Complaints") k)) ∧
      (∀ k ∈ dedupKeys ((tmpRows dfW "Current Command" "Tax ID" "Total Complaints"
          "Total Substantiated Complaints").map (fun r => r.key)),
        2 ≤ ((aggFor (tmpRows dfW "Current Command" "Tax ID" "Total Complaints"
          "Total Substantiated Complaints") k).officers : ℤ) →
          addDerived (aggFor (tmpRows dfW "Current Command" "Tax ID" "Total Complaints"
            "Total Substantiated Complaints") k) ∈ gs.table) ∧
      gs.median_avg_complaints =
        nanmedian (gs.table.map (fun g => g.avg_complaints_per_officer)) ∧
      gs.median_subst_per_100 =
        nanmedian (gs.table.map (fun g => g.substantiated_per_100_complaints)) ∧
      (gs.table = [] →
        gs.median_avg_complaints = none ∧ gs.median_subst_per_100 = none)) :=
  ⟨⟨by decide, by decide, by decide, by norm_num⟩,
    compute_group_stats_filter_medians dfW "Current Command" 2 "Tax ID"
      "Total Complaints" "Total Substantiated Complaints" (by decide) (by decide)
      (by decide) (by decide) (by decide) (by norm_num)⟩

/-- Witness for C8 at `dfW` with threshold `0` (every group retained,
including the null-key group). -/
theorem compute_group_stats_grouping_witness :
    ((∀ c ∈ REQUIRED_COLUMNS, c ∈ dfW.cols) ∧ "Current Command" ∈ dfW.cols ∧
      "Current Command" ∈ ALLOWED_RQ2_GROUP_COLS ∧ (0 : ℤ) ≤ 0) ∧
    (∃ gs : GroupStats, compute_group_stats dfW "Current Command" 0 "Tax ID"
        "Total Complaints" "Total Substantiated Complaints" = .ok gs ∧
      ∀ r0 ∈ dfW.rows, ∃ rec ∈ gs.table,
        rec.key = r0 "Current Command" ∧
        rec.officers = ((dfW.rows.filter
          (fun r => decide (r "Current Command" = r0 "Current Command"))).filter
          (fun r => !((r "Tax ID").isNA))).length ∧
        rec.total_complaints = ((dfW.rows.filter
          (fun r => decide (r "Current Command" = r0 "Current Command"))).map
          (fun r => (toNumericCell (r "Total Complaints")).getD 0)).sum ∧
        rec.total_substantiated = ((dfW.rows.filter
          (fun r => decide (r "Current Command" = r0 "Current Command"))).map
          (fun r => (toNumericCell (r "Total Substantiated Complaints")).getD 0)).sum ∧
        (rec.total_complaints = 0 → rec.substantiated_per_100_complaints = none) ∧
        (0 < rec.total_complaints → rec.substantiated_per_100_complaints =
          some (rec.total_substantiated / rec.total_complaints * 100)) ∧
        (gs.table.map (fun g => g.key)).count (r0 "Current Command") = 1) :=
  ⟨⟨by decide, by decide, by decide, by norm_num⟩,
    compute_group_stats_grouping dfW "Current Command" 0 "Tax ID"
      "Total Complaints" "Total Substantiated Complaints" (by decide) (by decide)
      (by decide) (by decide) (by decide) (by norm_num)⟩

end CCRB
